import Mathlib

/-!
Asset syncer, PostgreSQL asset manager.

A shallow embedding of `cmd/asset-syncer/postgresql_utils.go`.

The database is a value `DB` holding the three tables the statements of the
file touch (`repos`, `charts`, `files`), each a list of rows in table order.
A connection `Conn` pairs the database with a script of injected statement
failures, so that the error paths of the Go functions can be exercised: every
statement sent over the connection consumes one entry of the script.

Every SQL statement of the source is translated to a function on `DB` that
evaluates the statement's `WHERE` / `ON CONFLICT` clauses as written. One
statement has values spliced into its text instead of bound to it, the `DELETE`
of `removeMissingCharts`: where the spliced chart IDs have no single quote the
text is a list of string literals and is read as such; any other text is handed
to the database server, a parameter `Server` of the functions that send it.
-/

namespace AssetSyncer

/-! ## Data model -/

/-- Modelled from the spec: `models.Repo` is declared outside the sources at hand.
The fields are the ones the asset manager reads or writes (`Namespace`, `Name`);
`URL` stands for the fields it leaves at their zero value. -/
structure Repo where
  Namespace : String
  Name : String
  URL : String
deriving DecidableEq, Repr

/-- Modelled from the spec: `models.RepoInternal`, the repository reference handed
to `Sync`; only `Namespace` and `Name` are read. -/
structure RepoInternal where
  Namespace : String
  Name : String
  URL : String
deriving DecidableEq, Repr

/-- Modelled from the spec: `models.Chart`, the chart metadata document. `ID` is
the JSON key `ID`, `Repo` the JSON key `repo` (a pointer, `none` is `nil` and
marshals to JSON `null`), whose `Name` is the key `name`. `Name` and
`Description` stand for the rest of the metadata. -/
structure Chart where
  ID : String
  Name : String
  Repo : Option Repo
  Description : String
deriving DecidableEq, Repr

/-- Modelled from the spec: `models.ChartFiles`, the file bundle document (README,
values, schema, digest). `Repo` is a pointer: `insertFiles` tests it for `nil`. -/
structure ChartFiles where
  ID : String
  Readme : String
  Values : String
  Schema : String
  Repo : Option Repo
  Digest : String
deriving DecidableEq, Repr

/-- A row of the repository table: key `(namespace, name)`; `checksum` and
`last_update` are nullable (a row created by `EnsureRepoExists` has neither). -/
structure RepoRow where
  nspace : String
  name : String
  checksum : Option String
  last_update : Option String
deriving DecidableEq, Repr

/-- A row of the chart table: key `(chart_id, repo_namespace, repo_name)`; `info`
is the jsonb document, identified with the chart it is the marshalling of. -/
structure ChartRow where
  repo_namespace : String
  repo_name : String
  chart_id : String
  info : Chart
deriving DecidableEq, Repr

/-- A row of the chart files table: key `(repo_namespace, chart_files_ID)`. -/
structure FilesRow where
  repo_name : String
  repo_namespace : String
  chart_files_ID : String
  info : ChartFiles
deriving DecidableEq, Repr

/-- The database: the three tables, rows in table order. -/
structure DB where
  repos : List RepoRow
  charts : List ChartRow
  files : List FilesRow
deriving DecidableEq, Repr

/-- A connection: the database and the script of injected failures. The head of
`faults` decides the next statement: `some e` makes it fail with `e` and leaves
the database as it was; `none` (or an exhausted script) lets it run. -/
structure Conn where
  db : DB
  faults : List (Option String)
deriving DecidableEq, Repr

/-- The failure injected into the statement that is sent next, if there is one. -/
def Conn.nextFault (c : Conn) : Option String :=
  match c.faults with
  | some e :: _ => some e
  | _ => none

/-- What a Go call of type `error` does: returns `nil`, returns an error, or does
not return because of a run-time fault (index out of range, nil dereference). -/
inductive Ret where
  | ok
  | err (e : String)
  | crashed (msg : String)
deriving DecidableEq, Repr

/-- The outcome of one statement on the database: the new database or the
database's own error (a violated constraint, a malformed statement). -/
inductive StmtResult where
  | done (db : DB)
  | failed (e : String)
deriving DecidableEq, Repr

/-- What the database server makes of a statement with chart IDs spliced into its
text: from the statement text, the value bound to `$1` and the database, the
outcome. The server is not part of the program; the functions that send such a
statement take it as a parameter. -/
abbrev Server := String → String → DB → StmtResult

/-- Send one writing statement over the connection. -/
def Conn.exec (c : Conn) (stmt : DB → StmtResult) : Option String × Conn :=
  match c.faults with
  | some e :: rest => (some e, { db := c.db, faults := rest })
  | none :: rest =>
    match stmt c.db with
    | .done db' => (none, { db := db', faults := rest })
    | .failed e => (some e, { db := c.db, faults := rest })
  | [] =>
    match stmt c.db with
    | .done db' => (none, { db := db', faults := [] })
    | .failed e => (some e, { db := c.db, faults := [] })

/-- Send one query over the connection: the rows it selects, or the error. -/
def Conn.query {α : Type} (c : Conn) (q : DB → List α) : (Option String × List α) × Conn :=
  match c.faults with
  | some e :: rest => ((some e, []), { db := c.db, faults := rest })
  | none :: rest => ((none, q c.db), { db := c.db, faults := rest })
  | [] => ((none, q c.db), { db := c.db, faults := [] })

/-! ## JSON accessors used by the statements -/

/-- The SQL expression `info ->> 'ID'` on a chart document. -/
def infoID (info : Chart) : Option String := some info.ID

/-- The SQL expression `info -> 'repo' ->> 'name'` on a chart document: SQL `NULL`
when the document's `repo` is JSON `null`. -/
def infoRepoName (info : Chart) : Option String := info.Repo.map (fun r => r.Name)

/-- The SQL expression `info ->> 'Digest'` on a chart files document. -/
def infoDigest (info : ChartFiles) : Option String := some info.Digest

/-! ## Statements -/

/-- Modelled from the spec: `dbutils.InitTables` creates the tables when they are
missing; it touches no row, and `Sync` discards what it returns. -/
def InitTables (c : Conn) : Conn := c

/-- Modelled from the spec: the repository rows after the statement of
`dbutils.EnsureRepoExists`, "insert if absent": a row `(namespace, name)` is added, with no checksum, when no row has that key; an
existing row is left alone. -/
def ensureRepoRows (rows : List RepoRow) (repoNamespace repoName : String) : List RepoRow :=
  if rows.any (fun r => r.nspace = repoNamespace ∧ r.name = repoName) then rows
  else rows ++
    [{ nspace := repoNamespace, name := repoName, checksum := none, last_update := none }]

/-- Modelled from the spec: the statement of `dbutils.EnsureRepoExists`. -/
def ensureRepoStmt (repoNamespace repoName : String) (db : DB) : StmtResult :=
  .done { db with repos := ensureRepoRows db.repos repoNamespace repoName }

/-- Modelled from the spec: `dbutils.EnsureRepoExists`, "insert if absent; never
overwrite an existing checksum here". The returned row ID is dropped, as `Sync`
drops it. -/
def EnsureRepoExists (c : Conn) (repoNamespace repoName : String) : Option String × Conn :=
  c.exec (ensureRepoStmt repoNamespace repoName)

/-- The conflict target of the chart upsert: the row has the key `(chart_id,
repo_namespace, repo_name)`. -/
def hasChartKey (ns name id : String) (r : ChartRow) : Bool :=
  decide (r.chart_id = id ∧ r.repo_namespace = ns ∧ r.repo_name = name)

/-- The action `DO UPDATE SET info = $4` on one row: a row with the conflicting key
gets the new document, whole; any other row is left as it is. -/
def setInfo (ns name : String) (chart : Chart) (r : ChartRow) : ChartRow :=
  if hasChartKey ns name chart.ID r then { r with info := chart } else r

/-- The rows after `INSERT INTO charts (repo_namespace, repo_name, chart_id, info)
VALUES ($1, $2, $3, $4) ON CONFLICT (chart_id, repo_namespace, repo_name) DO UPDATE
SET info = $4`, with `$3 = chart.ID` and `$4` the marshalled chart. -/
def upsertChartRows (rows : List ChartRow) (ns name : String) (chart : Chart) : List ChartRow :=
  if rows.any (hasChartKey ns name chart.ID) then rows.map (setInfo ns name chart)
  else rows ++ [{ repo_namespace := ns, repo_name := name, chart_id := chart.ID, info := chart }]

/-- The upsert statement of `importCharts` for one chart. The chart table
references the repository table ("Ensure the repo exists so FK constraints will
be met"): without the repository row the statement is rejected. -/
def upsertChartStmt (repo : Repo) (chart : Chart) (db : DB) : StmtResult :=
  if db.repos.any (fun r => r.nspace = repo.Namespace ∧ r.name = repo.Name) then
    .done { db with charts := upsertChartRows db.charts repo.Namespace repo.Name chart }
  else .failed "insert or update on table charts violates foreign key constraint"

/-- Modelled from the spec: `dbutils.ChartTable`, the name of the chart table, a
constant declared outside the sources at hand; `updateIcon` spells the table out
as `charts`. -/
def ChartTable : String := "charts"

/-- The text `fmt.Sprintf("'%s'", chart.ID)` of one chart ID. -/
def quoteID (id : String) : String := "'" ++ id ++ "'"

/-- The text `strings.Join(chartIDs, ", ")` of the quoted chart IDs. -/
def chartIDsString (ids : List String) : String := ", ".intercalate (ids.map quoteID)

/-- The text of the statement of `removeMissingCharts`, with the table name and the
quoted chart IDs spliced in. -/
def removeMissingText (ids : List String) : String :=
  "DELETE FROM " ++ ChartTable ++ " WHERE info ->> 'ID' NOT IN (" ++ chartIDsString ids
    ++ ") AND info -> 'repo' ->> 'name' = $1"

/-- An ID that the text `'%s'` turns into the SQL string literal denoting it: one
without a single quote. -/
def plainID (id : String) : Bool := !(id.data.contains (Char.ofNat 39))

/-- The SQL condition `v NOT IN (ids)`, true or not: not true on `NULL`. -/
def sqlNotIn (v : Option String) (ids : List String) : Bool :=
  match v with
  | none => false
  | some i => decide (i ∉ ids)

/-- The SQL condition `v = p`, true or not: not true on `NULL`. -/
def sqlEq (v : Option String) (p : String) : Bool :=
  match v with
  | none => false
  | some x => decide (x = p)

/-- The `WHERE` clause of the statement of `removeMissingCharts`. -/
def staleRow (ids : List String) (repoName : String) (r : ChartRow) : Bool :=
  sqlNotIn (infoID r.info) ids && sqlEq (infoRepoName r.info) repoName

/-- The statement of `removeMissingCharts`: `DELETE FROM charts WHERE info ->> 'ID'
NOT IN (ids) AND info -> 'repo' ->> 'name' = $1`. When no ID has a single quote,
the spliced text is the list of the string literals that denote the IDs, and the
statement deletes the rows its `WHERE` clause holds of. Any other text (an ID with
a doubled quote, an ID that closes the literal and goes on in SQL) is whatever
statement the server reads in it: the outcome is the server's. -/
def removeMissingStmt (pg : Server) (ids : List String) (repoName : String) (db : DB) :
    StmtResult :=
  if ids.all plainID then
    .done { db with charts := db.charts.filter (fun r => !staleRow ids repoName r) }
  else pg (removeMissingText ids) repoName db

/-- The rows after `INSERT INTO repos ... ON CONFLICT (namespace, name) DO UPDATE
SET last_update = $4, checksum = $3`. -/
def upsertRepoRows (rows : List RepoRow) (ns name checksum now : String) : List RepoRow :=
  if rows.any (fun r => r.nspace = ns ∧ r.name = name) then
    rows.map (fun r =>
      if r.nspace = ns ∧ r.name = name then
        { r with checksum := some checksum, last_update := some now }
      else r)
  else rows ++ [{ nspace := ns, name := name, checksum := some checksum, last_update := some now }]

/-- The statement of `UpdateLastCheck`. -/
def updateLastCheckStmt (ns name checksum now : String) (db : DB) : StmtResult :=
  .done { db with repos := upsertRepoRows db.repos ns name checksum now }

/-- The rows after `INSERT INTO files ... ON CONFLICT (repo_namespace,
chart_files_ID) DO UPDATE SET info = $4`. -/
def upsertFilesRows (rows : List FilesRow) (name ns id : String) (info : ChartFiles) :
    List FilesRow :=
  if rows.any (fun r => r.repo_namespace = ns ∧ r.chart_files_ID = id) then
    rows.map (fun r =>
      if r.repo_namespace = ns ∧ r.chart_files_ID = id then { r with info := info } else r)
  else rows ++ [{ repo_name := name, repo_namespace := ns, chart_files_ID := id, info := info }]

/-- The statement of `insertFiles`. -/
def insertFilesStmt (repo : Repo) (chartFilesID : String) (files : ChartFiles) (db : DB) :
    StmtResult :=
  .done { db with files := upsertFilesRows db.files repo.Name repo.Namespace chartFilesID files }

/-! ## The asset manager -/

/-- The function `importCharts`: upsert the charts in list order, stopping at the first
statement that fails. `json.Marshal` cannot fail on a chart document. -/
def importCharts (c : Conn) : List Chart → Repo → Option String × Conn
  | [], _ => (none, c)
  | chart :: rest, repo =>
    match c.exec (upsertChartStmt repo chart) with
    | (some e, c') => (some e, c')
    | (none, c') => importCharts c' rest repo

/-- The function `removeMissingCharts`: the statement text is built from the chart
IDs; the repository name handed to the statement is `charts[0].Repo.Name`,
evaluated before the statement is sent. -/
def removeMissingCharts (pg : Server) (c : Conn) (charts : List Chart) : Ret × Conn :=
  let chartIDs := charts.map (fun chart => chart.ID)
  match charts with
  | [] => (.crashed "runtime error: index out of range [0] with length 0", c)
  | first :: _ =>
    match first.Repo with
    | none => (.crashed "runtime error: invalid memory address or nil pointer dereference", c)
    | some r =>
      match c.exec (removeMissingStmt pg chartIDs r.Name) with
      | (some e, c') => (.err e, c')
      | (none, c') => (.ok, c')

/-- The function `Sync`: ensure the repository row, import the charts, remove the
charts that are no longer in the index. -/
def Sync (pg : Server) (c : Conn) (repo : RepoInternal) (charts : List Chart) : Ret × Conn :=
  match EnsureRepoExists (InitTables c) repo.Namespace repo.Name with
  | (some e, c1) => (.err e, c1)
  | (none, c1) =>
    match importCharts c1 charts { Namespace := repo.Namespace, Name := repo.Name, URL := "" } with
    | (some e, c2) => (.err e, c2)
    | (none, c2) => removeMissingCharts pg c2 charts

/-- The function `RepoAlreadyProcessed`: `SELECT checksum FROM repos WHERE name = $1`, scan the
first row. The scan fails when the query failed, when there is no row, and when
the checksum is `NULL`. -/
def RepoAlreadyProcessed (c : Conn) (repoName repoChecksum : String) : Bool × Conn :=
  match c.query (fun db => (db.repos.filter (fun r => r.name = repoName)).map (fun r => r.checksum)) with
  | ((some _, _), c') => (false, c')
  | ((none, []), c') => (false, c')
  | ((none, none :: _), c') => (false, c')
  | ((none, some lastChecksum :: _), c') => (decide (lastChecksum = repoChecksum), c')

/-- The function `UpdateLastCheck`: `now` is the text `now.String()`. -/
def UpdateLastCheck (c : Conn) (repoNamespace repoName checksum now : String) :
    Option String × Conn :=
  c.exec (updateLastCheckStmt repoNamespace repoName checksum now)

/-- The function `filesExist`: `SELECT * FROM files WHERE chart_files_id = $1 AND info ->>
'Digest' = $2`; true when the query succeeded and selected a row. -/
def filesExist (c : Conn) (chartFilesID digest : String) : Bool × Conn :=
  match c.query (fun db => db.files.filter (fun r =>
      r.chart_files_ID = chartFilesID ∧ infoDigest r.info = some digest)) with
  | ((some _, _), c') => (false, c')
  | ((none, rows), c') => (!rows.isEmpty, c')

/-- A lower-case hexadecimal digit. -/
def hexDigit (n : Nat) : Char :=
  if n < 10 then Char.ofNat (48 + n) else Char.ofNat (87 + n)

/-- What the Go verb `%q` writes for one character of a string: a backslash before
a double quote and before a backslash, the short escapes of the control characters
that have one, `\x` and two hexadecimal digits for the other characters below the
space and for U+007F, `\u00` and two hexadecimal digits for the unprintable
characters U+0080 to U+00A0 and U+00AD, and the character itself otherwise. Go also
escapes the unprintable characters from U+0100 on, by a table that is not part of
this file: those are written as they are here. -/
def quoteRune (ch : Char) : List Char :=
  if ch.toNat = 34 ∨ ch.toNat = 92 then [Char.ofNat 92, ch]
  else if ch.toNat = 7 then [Char.ofNat 92, 'a']
  else if ch.toNat = 8 then [Char.ofNat 92, 'b']
  else if ch.toNat = 12 then [Char.ofNat 92, 'f']
  else if ch.toNat = 10 then [Char.ofNat 92, 'n']
  else if ch.toNat = 13 then [Char.ofNat 92, 'r']
  else if ch.toNat = 9 then [Char.ofNat 92, 't']
  else if ch.toNat = 11 then [Char.ofNat 92, 'v']
  else if ch.toNat < 32 ∨ ch.toNat = 127 then
    [Char.ofNat 92, 'x', hexDigit (ch.toNat / 16), hexDigit (ch.toNat % 16)]
  else if (128 ≤ ch.toNat ∧ ch.toNat ≤ 160) ∨ ch.toNat = 173 then
    [Char.ofNat 92, 'u', '0', '0', hexDigit (ch.toNat / 16), hexDigit (ch.toNat % 16)]
  else [ch]

/-- The text `%q` of a string: the escaped characters between double quotes. -/
def goQuote (s : String) : String :=
  String.mk ([Char.ofNat 34] ++ (s.data.map quoteRune).flatten ++ [Char.ofNat 34])

/-- The function `insertFiles`: it refuses a bundle without repository before
touching the database, with the error `unable to insert file without repo: %q`
of the bundle ID. -/
def insertFiles (c : Conn) (chartFilesID : String) (files : ChartFiles) : Option String × Conn :=
  match files.Repo with
  | none => (some ("unable to insert file without repo: " ++ goQuote files.ID), c)
  | some repo => c.exec (insertFilesStmt repo chartFilesID files)

/-- Modelled from the spec: the run of one repository (section 4.2), whose driver
is not among the sources at hand. Steps 1 to 3 are `Sync`; step 4, the ancillary
asset phase, is best effort and never aborts the run, so it is any function
`assetPhase` of the connection; step 5 commits checksum and time with
`UpdateLastCheck`. A failure of steps 1 to 3 ends the run before the commit. -/
def syncRun (pg : Server) (assetPhase : Conn → Conn) (c : Conn) (repo : RepoInternal)
    (charts : List Chart) (checksum now : String) : Ret × Conn :=
  match Sync pg c repo charts with
  | (.ok, c1) =>
    match UpdateLastCheck (assetPhase c1) repo.Namespace repo.Name checksum now with
    | (none, c2) => (.ok, c2)
    | (some e, c2) => (.err e, c2)
  | (r, c1) => (r, c1)

/-! ## Notions used to state the properties -/

/-- The last chart of the list that has the given ID. -/
def lastWithID : List Chart → String → Option Chart
  | [], _ => none
  | c :: cs, id =>
    match lastWithID cs id with
    | some c' => some c'
    | none => if c.ID = id then some c else none

/-- The chart rows of one repository, by the row's key columns. -/
def chartsOf (db : DB) (ns name : String) : List ChartRow :=
  db.charts.filter (fun r => decide (r.repo_namespace = ns ∧ r.repo_name = name))

/-- The key of a chart row. -/
def chartKey (r : ChartRow) : String × String × String :=
  (r.repo_namespace, r.repo_name, r.chart_id)

/-- The rows of the chart table after the upserts of `importCharts` all ran. -/
def importRows (ns name : String) (rows : List ChartRow) (charts : List Chart) : List ChartRow :=
  charts.foldl (fun rs ch => upsertChartRows rs ns name ch) rows

/-- What the upserts of `importCharts`, in list order, make of one row. -/
def relabel (ns name : String) (charts : List Chart) (r : ChartRow) : ChartRow :=
  charts.foldl (fun row ch => setInfo ns name ch row) r

/-- The row's document agrees with the row's key columns, as far as pruning reads
it: a row of the repository `(ns, name)` holds a document with the row's chart ID
that names the repository `name`. -/
def consistentRow (ns name : String) (r : ChartRow) : Prop :=
  r.repo_namespace = ns → r.repo_name = name →
    r.info.ID = r.chart_id ∧ r.info.Repo.map (fun x => x.Name) = some name

instance (ns name : String) (r : ChartRow) : Decidable (consistentRow ns name r) := by
  unfold consistentRow; infer_instance

/-! ## Concrete inputs -/

def demo : RepoInternal := { Namespace := "kubeapps", Name := "demo", URL := "" }
def demoRepo : Repo := { Namespace := "kubeapps", Name := "demo", URL := "" }
def otherDemoRepo : Repo := { Namespace := "team-a", Name := "demo", URL := "" }
def ch1 : Chart := { ID := "ch1", Name := "one", Repo := some demoRepo, Description := "" }
def ch2 : Chart := { ID := "ch2", Name := "two", Repo := some demoRepo, Description := "" }
def emptyDB : DB := { repos := [], charts := [], files := [] }

def ch3 : Chart := { ID := "ch3", Name := "three", Repo := some demoRepo, Description := "" }

/-- A newer document for the chart `ch2`. -/
def ch2b : Chart :=
  { ID := "ch2", Name := "two", Repo := some demoRepo, Description := "second edition" }

/-- A chart `ch1` whose document names the repository `stable`. -/
def ch1Stable : Chart :=
  { ID := "ch1", Name := "one",
    Repo := some { Namespace := "kubeapps", Name := "stable", URL := "" }, Description := "" }

/-- A chart of the repository `team-a/demo`. -/
def wordpress : Chart :=
  { ID := "demo/wordpress", Name := "wordpress", Repo := some otherDemoRepo, Description := "" }

def rowOf (ns name : String) (c : Chart) : ChartRow :=
  { repo_namespace := ns, repo_name := name, chart_id := c.ID, info := c }

/-- The database after the repository `kubeapps/demo` was synced with `ch1`, `ch2`. -/
def syncedDB : DB :=
  { repos := [{ nspace := "kubeapps", name := "demo", checksum := none, last_update := none }],
    charts := [rowOf "kubeapps" "demo" ch1, rowOf "kubeapps" "demo" ch2],
    files := [] }

/-- The database `syncedDB` after the checksum `abc` was committed at `t0`. -/
def committedDB : DB :=
  { syncedDB with
    repos := [{ nspace := "kubeapps", name := "demo", checksum := some "abc",
                last_update := some "t0" }] }

/-- Two repositories named `demo`, in the namespaces `kubeapps` and `team-a`; the
second one has the chart `demo/wordpress`. -/
def twoNamespacesDB : DB :=
  { repos := [{ nspace := "kubeapps", name := "demo", checksum := none, last_update := none },
              { nspace := "team-a", name := "demo", checksum := none, last_update := none }],
    charts := [rowOf "team-a" "demo" wordpress],
    files := [] }

/-- Two repositories named `demo` with committed checksums `abc` and `def`. -/
def twoChecksumsDB : DB :=
  { repos := [{ nspace := "kubeapps", name := "demo", checksum := some "abc",
                last_update := some "t0" },
              { nspace := "team-a", name := "demo", checksum := some "def",
                last_update := some "t1" }],
    charts := [], files := [] }

/-- The file bundle of `demo/wordpress` version `1.0` of the repository
`kubeapps/demo`. -/
def bundle : ChartFiles :=
  { ID := "demo/wordpress-1.0", Readme := "readme", Values := "values", Schema := "",
    Repo := some demoRepo, Digest := "d1" }

/-- Two repositories named `demo`; only `kubeapps/demo` has a file bundle. -/
def filesDB : DB :=
  { repos := twoNamespacesDB.repos, charts := [],
    files := [{ repo_name := "demo", repo_namespace := "kubeapps",
                chart_files_ID := "demo/wordpress-1.0", info := bundle }] }

/-- The database after the repository `kubeapps/demo` was synced with `ch1Stable`
and `ch2`. -/
def stableDB : DB :=
  { syncedDB with
    charts := [rowOf "kubeapps" "demo" ch1Stable, rowOf "kubeapps" "demo" ch2] }

/-- A chart of `kubeapps/demo` whose ID closes the string literal it is spliced
into and goes on in SQL. -/
def chX : Chart :=
  { ID := "x') AND (SELECT count(*) FROM charts) = 3 AND '1' IN ('1", Name := "x",
    Repo := some demoRepo, Description := "" }

/-- The statement that `removeMissingCharts` sends for the chart list `[chX]`. -/
def chXText : String :=
  "DELETE FROM charts WHERE info ->> 'ID' NOT IN ('x') AND (SELECT count(*) FROM charts) = 3 AND '1' IN ('1') AND info -> 'repo' ->> 'name' = $1"

/-- The statement `chXText` read as SQL: when the chart table has three rows, the
rows whose document has an ID other than `x` and names the repository `$1` are
deleted; with any other number of rows none is. -/
def chXEffect (p : String) (db : DB) : DB :=
  if db.charts.length = 3 then
    { db with charts := db.charts.filter (fun r => !staleRow ["x"] p r) }
  else db

/-- A server that reads the statement `chXText` as SQL does; it is handed no other
spliced statement below. -/
def chXServer : Server := fun text p db =>
  if text = chXText then .done (chXEffect p db) else .failed "not a statement of this file"

/-! ## Statements over a connection -/

theorem exec_ok {c c' : Conn} {stmt : DB → StmtResult} (h : c.exec stmt = (none, c')) :
    stmt c.db = .done c'.db ∧ c'.faults = c.faults.tail := by
  unfold Conn.exec at h
  split at h
  · simp at h
  · split at h
    · next hs => simp at h; subst h; simp_all
    · simp at h
  · split at h
    · next hs => simp at h; subst h; simp_all
    · simp at h

theorem exec_err {c c' : Conn} {stmt : DB → StmtResult} {e : String}
    (h : c.exec stmt = (some e, c')) : c'.db = c.db ∧ c'.faults = c.faults.tail := by
  unfold Conn.exec at h
  split at h
  · simp at h; obtain ⟨_, rfl⟩ := h; simp_all
  · split at h
    · simp at h
    · simp at h; obtain ⟨_, rfl⟩ := h; simp_all
  · split at h
    · simp at h
    · simp at h; obtain ⟨_, rfl⟩ := h; simp_all

theorem exec_ideal_done (db db' : DB) (stmt : DB → StmtResult) (h : stmt db = .done db') :
    Conn.exec ⟨db, []⟩ stmt = (none, ⟨db', []⟩) := by
  simp [Conn.exec, h]

theorem exec_ideal_failed (db : DB) (e : String) (stmt : DB → StmtResult)
    (h : stmt db = .failed e) :
    Conn.exec ⟨db, []⟩ stmt = (some e, ⟨db, []⟩) := by
  simp [Conn.exec, h]

theorem exec_fault (db : DB) (e : String) (rest : List (Option String)) (stmt : DB → StmtResult) :
    Conn.exec ⟨db, some e :: rest⟩ stmt = (some e, ⟨db, rest⟩) := by
  simp [Conn.exec]

/-! ## The chart upsert on rows -/

theorem setInfo_key (ns name : String) (chart : Chart) (r : ChartRow) :
    chartKey (setInfo ns name chart r) = chartKey r := by
  unfold setInfo; split <;> rfl

theorem hasChartKey_setInfo (ns name id : String) (chart : Chart) (r : ChartRow) :
    hasChartKey ns name id (setInfo ns name chart r) = hasChartKey ns name id r := by
  unfold setInfo; split <;> rfl

theorem hasChartKey_iff (ns name id : String) (r : ChartRow) :
    hasChartKey ns name id r = true ↔ chartKey r = (ns, name, id) := by
  simp [hasChartKey, chartKey]; tauto

theorem upsertChartRows_keys (rows : List ChartRow) (ns name : String) (chart : Chart) :
    ∀ r ∈ rows, ∃ r' ∈ upsertChartRows rows ns name chart, chartKey r' = chartKey r := by
  intro r hr
  unfold upsertChartRows
  split
  · exact ⟨setInfo ns name chart r, List.mem_map_of_mem _ hr, setInfo_key ..⟩
  · exact ⟨r, List.mem_append_left _ hr, rfl⟩

theorem importRows_keys (ns name : String) (charts : List Chart) :
    ∀ (rows : List ChartRow), ∀ r ∈ rows,
      ∃ r' ∈ importRows ns name rows charts, chartKey r' = chartKey r := by
  induction charts with
  | nil => intro rows r hr; exact ⟨r, hr, rfl⟩
  | cons ch rest ih =>
    intro rows r hr
    obtain ⟨r1, hr1, hk1⟩ := upsertChartRows_keys rows ns name ch r hr
    obtain ⟨r2, hr2, hk2⟩ := ih (upsertChartRows rows ns name ch) r1 hr1
    exact ⟨r2, hr2, hk2.trans hk1⟩

theorem importRows_cons (ns name : String) (rows : List ChartRow) (ch : Chart)
    (rest : List Chart) :
    importRows ns name rows (ch :: rest)
      = importRows ns name (upsertChartRows rows ns name ch) rest := rfl

theorem importRows_append (ns name : String) (rows : List ChartRow) (xs ys : List Chart) :
    importRows ns name rows (xs ++ ys) = importRows ns name (importRows ns name rows xs) ys := by
  simp [importRows, List.foldl_append]

/-! ## importCharts over a connection -/

theorem upsertChartStmt_done {repo : Repo} {chart : Chart} {db db' : DB}
    (h : upsertChartStmt repo chart db = .done db') :
    db' = { db with charts := upsertChartRows db.charts repo.Namespace repo.Name chart } ∧
    db.repos.any (fun r => r.nspace = repo.Namespace ∧ r.name = repo.Name) = true := by
  unfold upsertChartStmt at h
  split at h
  · next hx => simp at h; exact ⟨h.symm, hx⟩
  · simp at h

theorem importCharts_ok (repo : Repo) (charts : List Chart) :
    ∀ (c c' : Conn), importCharts c charts repo = (none, c') →
      c'.db = { c.db with charts := importRows repo.Namespace repo.Name c.db.charts charts } ∧
      c'.faults = c.faults.drop charts.length := by
  induction charts with
  | nil => intro c c' h; simp [importCharts] at h; subst h; simp [importRows]
  | cons ch rest ih =>
    intro c c' h
    unfold importCharts at h
    split at h
    · simp at h
    · next c1 hex =>
      obtain ⟨hdb, hf⟩ := exec_ok hex
      obtain ⟨hdb1, _⟩ := upsertChartStmt_done hdb
      obtain ⟨h1, h2⟩ := ih c1 c' h
      rw [h1, h2, hdb1, hf]
      refine ⟨by simp [importRows], ?_⟩
      cases c.faults <;> simp

theorem importCharts_err (repo : Repo) (charts : List Chart) :
    ∀ (c c' : Conn) (e : String), importCharts c charts repo = (some e, c') →
      ∃ written failing later, charts = written ++ failing :: later ∧
        c'.db = { c.db with
          charts := importRows repo.Namespace repo.Name c.db.charts written } ∧
        c'.faults = c.faults.drop (written.length + 1) := by
  induction charts with
  | nil => intro c c' e h; simp [importCharts] at h
  | cons ch rest ih =>
    intro c c' e h
    unfold importCharts at h
    split at h
    · next e1 c1 hex =>
      simp at h
      obtain ⟨_, rfl⟩ := h
      obtain ⟨hdb, hf⟩ := exec_err hex
      refine ⟨[], ch, rest, rfl, ?_, ?_⟩
      · rw [hdb]; rfl
      · rw [hf]; cases c.faults <;> simp
    · next c1 hex =>
      obtain ⟨hdb, hf⟩ := exec_ok hex
      obtain ⟨hdb1, _⟩ := upsertChartStmt_done hdb
      obtain ⟨w, f, l, hc, h1, h2⟩ := ih c1 c' e h
      refine ⟨ch :: w, f, l, by simp [hc], ?_, ?_⟩
      · rw [h1, hdb1]; simp [importRows]
      · rw [h2, hf]; cases c.faults <;> simp

/-! ## The net effect of the upserts -/

theorem relabel_cons (ns name : String) (ch : Chart) (rest : List Chart) (r : ChartRow) :
    relabel ns name (ch :: rest) r = relabel ns name rest (setInfo ns name ch r) := rfl

theorem relabel_snoc (ns name : String) (ch : Chart) (cs : List Chart) (r : ChartRow) :
    relabel ns name (cs ++ [ch]) r = setInfo ns name ch (relabel ns name cs r) := by
  simp [relabel, List.foldl_append]

theorem setInfo_eq_with (ns name : String) (ch : Chart) (r : ChartRow) :
    ∃ x, setInfo ns name ch r = { r with info := x } := by
  unfold setInfo; split
  · exact ⟨ch, rfl⟩
  · exact ⟨r.info, rfl⟩

theorem relabel_eq_with (ns name : String) (charts : List Chart) :
    ∀ r : ChartRow, ∃ x, relabel ns name charts r = { r with info := x } := by
  induction charts with
  | nil => intro r; exact ⟨r.info, rfl⟩
  | cons ch rest ih =>
    intro r
    obtain ⟨x, hx⟩ := setInfo_eq_with ns name ch r
    obtain ⟨y, hy⟩ := ih (setInfo ns name ch r)
    exact ⟨y, by rw [relabel_cons, hy, hx]⟩

theorem hasChartKey_relabel (ns name id : String) (charts : List Chart) (r : ChartRow) :
    hasChartKey ns name id (relabel ns name charts r) = hasChartKey ns name id r := by
  obtain ⟨x, hx⟩ := relabel_eq_with ns name charts r
  rw [hx]; rfl

theorem setInfo_relabel_of_key (ns name : String) (ch : Chart) (cs : List Chart) (r : ChartRow)
    (hk : hasChartKey ns name ch.ID r = true) (hi : r.info = ch) :
    setInfo ns name ch (relabel ns name cs r) = r := by
  have hk' := hasChartKey_relabel ns name ch.ID cs r
  obtain ⟨x, hx⟩ := relabel_eq_with ns name cs r
  unfold setInfo
  rw [hk', hk]
  simp only [if_true]
  rw [hx]
  cases r
  simp_all

theorem importRows_of_present (ns name : String) (charts : List Chart) :
    ∀ rows : List ChartRow,
      (∀ ch ∈ charts, rows.any (hasChartKey ns name ch.ID) = true) →
      importRows ns name rows charts = rows.map (relabel ns name charts) := by
  induction charts with
  | nil =>
    intro rows _
    have : relabel ns name [] = id := rfl
    simp [importRows, this]
  | cons ch rest ih =>
    intro rows h
    have h0 : rows.any (hasChartKey ns name ch.ID) = true := h ch (List.mem_cons_self _ _)
    have hu : upsertChartRows rows ns name ch = rows.map (setInfo ns name ch) := by
      simp [upsertChartRows, h0]
    rw [importRows_cons, hu, ih]
    · simp [List.map_map, Function.comp_def, relabel_cons]
    · intro ch' hch'
      have := h ch' (List.mem_cons_of_mem _ hch')
      rw [List.any_map]
      simpa [Function.comp_def, hasChartKey_setInfo] using this

theorem mem_upsertChartRows {rows : List ChartRow} {ns name : String} {ch : Chart}
    {r : ChartRow} (h : r ∈ upsertChartRows rows ns name ch) :
    (∃ r0 ∈ rows, r = setInfo ns name ch r0) ∨
      r = { repo_namespace := ns, repo_name := name, chart_id := ch.ID, info := ch } := by
  unfold upsertChartRows at h
  split at h
  · obtain ⟨r0, hr0, rfl⟩ := List.mem_map.mp h
    exact Or.inl ⟨r0, hr0, rfl⟩
  · rename_i hn
    rcases List.mem_append.mp h with h | h
    · refine Or.inl ⟨r, h, ?_⟩
      have hk : hasChartKey ns name ch.ID r = false := by
        simp only [List.any_eq_true, not_exists, not_and, Bool.not_eq_true] at hn
        exact hn r h
      simp [setInfo, hk]
    · exact Or.inr (by simpa using h)

theorem relabel_fixed (ns name : String) (charts : List Chart) :
    ∀ rows : List ChartRow, ∀ r ∈ importRows ns name rows charts,
      relabel ns name charts r = r := by
  induction charts using List.reverseRecOn with
  | nil => intro rows r _; rfl
  | append_singleton cs ch ih =>
    intro rows r hr
    rw [importRows_append] at hr
    change r ∈ upsertChartRows (importRows ns name rows cs) ns name ch at hr
    rw [relabel_snoc]
    rcases mem_upsertChartRows hr with ⟨r0, hr0, rfl⟩ | rfl
    · by_cases hk : hasChartKey ns name ch.ID r0 = true
      · apply setInfo_relabel_of_key
        · rw [hasChartKey_setInfo]; exact hk
        · simp [setInfo, hk]
      · have hs : setInfo ns name ch r0 = r0 := by simp [setInfo, hk]
        rw [hs, ih rows r0 hr0, hs]
    · apply setInfo_relabel_of_key
      · simp [hasChartKey]
      · rfl

theorem lastWithID_cons (c : Chart) (cs : List Chart) (id : String) :
    lastWithID (c :: cs) id =
      match lastWithID cs id with
      | some c' => some c'
      | none => if c.ID = id then some c else none := rfl

theorem lastWithID_mem {charts : List Chart} {id : String} {c : Chart} :
    lastWithID charts id = some c → c ∈ charts ∧ c.ID = id := by
  induction charts with
  | nil => simp [lastWithID]
  | cons ch rest ih =>
    intro h
    unfold lastWithID at h
    split at h
    · next c' hc' =>
      simp at h; subst h
      exact ⟨List.mem_cons_of_mem _ (ih hc').1, (ih hc').2⟩
    · split at h
      · next hid => simp at h; subst h; exact ⟨List.mem_cons_self _ _, hid⟩
      · simp at h

theorem lastWithID_isSome {charts : List Chart} {id : String} :
    (∃ c ∈ charts, c.ID = id) → ∃ c, lastWithID charts id = some c := by
  induction charts with
  | nil => simp
  | cons ch rest ih =>
    rintro ⟨c, hc, hid⟩
    unfold lastWithID
    cases hl : lastWithID rest id with
    | some c' => exact ⟨c', rfl⟩
    | none =>
      rcases List.mem_cons.mp hc with rfl | hc
      · exact ⟨c, by simp [hid]⟩
      · obtain ⟨c', hc'⟩ := ih ⟨c, hc, hid⟩
        rw [hl] at hc'; cases hc'

theorem relabel_info (ns name : String) (charts : List Chart) :
    ∀ r : ChartRow, r.repo_namespace = ns → r.repo_name = name →
      (relabel ns name charts r).info = (lastWithID charts r.chart_id).getD r.info := by
  induction charts with
  | nil => intro r _ _; rfl
  | cons ch rest ih =>
    intro r hns hname
    obtain ⟨x, hx⟩ := setInfo_eq_with ns name ch r
    have h1 := ih (setInfo ns name ch r) (by rw [hx]; exact hns) (by rw [hx]; exact hname)
    have hid : (setInfo ns name ch r).chart_id = r.chart_id := by rw [hx]
    rw [relabel_cons, h1, hid, lastWithID_cons]
    cases hl : lastWithID rest r.chart_id with
    | some c' => rfl
    | none =>
      by_cases hc : ch.ID = r.chart_id
      · have hk : hasChartKey ns name r.chart_id r = true := by simp [hasChartKey, hns, hname]
        simp [setInfo, hk, hc]
      · have hk : hasChartKey ns name ch.ID r = false := by
          simp [hasChartKey]; intro h; exact absurd h.symm hc
        simp [setInfo, hk, hc]

theorem upsertChartRows_has_key (rows : List ChartRow) (ns name : String) (ch : Chart) :
    ∃ r ∈ upsertChartRows rows ns name ch, chartKey r = (ns, name, ch.ID) := by
  unfold upsertChartRows
  split
  · next h =>
    obtain ⟨r, hr, hk⟩ := List.any_eq_true.mp h
    exact ⟨setInfo ns name ch r, List.mem_map_of_mem _ hr,
      by rw [setInfo_key]; exact (hasChartKey_iff ..).mp hk⟩
  · exact ⟨_, List.mem_append_right _ (List.mem_singleton_self _), rfl⟩

theorem importRows_has_key (ns name : String) (charts : List Chart) :
    ∀ rows : List ChartRow, ∀ ch ∈ charts,
      ∃ r ∈ importRows ns name rows charts, chartKey r = (ns, name, ch.ID) := by
  induction charts with
  | nil => intro rows ch h; cases h
  | cons c rest ih =>
    intro rows ch hch
    rw [importRows_cons]
    rcases List.mem_cons.mp hch with rfl | h
    · obtain ⟨r, hr, hk⟩ := upsertChartRows_has_key rows ns name ch
      obtain ⟨r', hr', hk'⟩ := importRows_keys ns name rest _ r hr
      exact ⟨r', hr', hk'.trans hk⟩
    · exact ih _ ch h

/-! ## Sync on a connection without injected failures -/

theorem ensureRepoRows_any (rows : List RepoRow) (ns name : String) :
    (ensureRepoRows rows ns name).any (fun r => r.nspace = ns ∧ r.name = name) = true := by
  unfold ensureRepoRows
  split
  · assumption
  · simp

theorem ensureRepoRows_of_any {rows : List RepoRow} {ns name : String}
    (h : rows.any (fun r => r.nspace = ns ∧ r.name = name) = true) :
    ensureRepoRows rows ns name = rows := by
  simp only [ensureRepoRows, h, if_true]

theorem importCharts_ideal (repo : Repo) (charts : List Chart) :
    ∀ db : DB, db.repos.any (fun r => r.nspace = repo.Namespace ∧ r.name = repo.Name) = true →
      importCharts ⟨db, []⟩ charts repo
        = (none, ⟨{ db with
            charts := importRows repo.Namespace repo.Name db.charts charts }, []⟩) := by
  induction charts with
  | nil => intro db _; rfl
  | cons ch rest ih =>
    intro db h
    have hs : upsertChartStmt repo ch db
        = .done { db with charts := upsertChartRows db.charts repo.Namespace repo.Name ch } := by
      simp only [upsertChartStmt, h, if_true]
    unfold importCharts
    rw [exec_ideal_done _ _ _ hs]
    simp only
    rw [ih { db with charts := upsertChartRows db.charts repo.Namespace repo.Name ch } h]
    rfl

/-- The database that `Sync` hands to `removeMissingCharts` when no statement
fails: the repository row ensured, the charts upserted. -/
theorem Sync_ideal (pg : Server) (db : DB) (repo : RepoInternal) (charts : List Chart) :
    Sync pg ⟨db, []⟩ repo charts
      = removeMissingCharts pg
          ⟨{ repos := ensureRepoRows db.repos repo.Namespace repo.Name,
             charts := importRows repo.Namespace repo.Name db.charts charts,
             files := db.files }, []⟩ charts := by
  unfold Sync EnsureRepoExists InitTables
  rw [exec_ideal_done db { db with repos := ensureRepoRows db.repos repo.Namespace repo.Name }
    (ensureRepoStmt repo.Namespace repo.Name) rfl]
  simp only
  rw [importCharts_ideal { Namespace := repo.Namespace, Name := repo.Name, URL := "" } charts
    { db with repos := ensureRepoRows db.repos repo.Namespace repo.Name }
    (ensureRepoRows_any ..)]

theorem staleRow_iff (ids : List String) (repoName : String) (r : ChartRow) :
    staleRow ids repoName r = true ↔
      r.info.ID ∉ ids ∧ r.info.Repo.map (fun x => x.Name) = some repoName := by
  unfold staleRow sqlNotIn sqlEq infoID infoRepoName
  cases hr : r.info.Repo <;> simp

theorem importRows_stable (ns name : String) (charts : List Chart) (rows : List ChartRow)
    (hkeys : ∀ ch ∈ charts, rows.any (hasChartKey ns name ch.ID) = true)
    (hfix : ∀ r ∈ rows, relabel ns name charts r = r) :
    importRows ns name rows charts = rows := by
  rw [importRows_of_present ns name charts rows hkeys]
  calc rows.map (relabel ns name charts) = rows.map id := List.map_congr_left hfix
    _ = rows := List.map_id rows

/-- A row that carries the key of a chart of the list holds, after the upserts,
the last chart of the list with that ID. -/
theorem imported_info {ns name : String} {charts : List Chart} {rows : List ChartRow}
    {r : ChartRow} (hr : r ∈ importRows ns name rows charts) {id : String}
    (hk : chartKey r = (ns, name, id)) (hid : ∃ c ∈ charts, c.ID = id) :
    ∃ c, lastWithID charts id = some c ∧ r.info = c := by
  obtain ⟨c, hc⟩ := lastWithID_isSome hid
  have hfix := relabel_fixed ns name charts rows r hr
  simp only [chartKey, Prod.mk.injEq] at hk
  have hinfo := relabel_info ns name charts r hk.1 hk.2.1
  rw [hfix, hk.2.2, hc] at hinfo
  exact ⟨c, hc, hinfo⟩

theorem imported_not_stale {ns name : String} {charts : List Chart} {rows : List ChartRow}
    {r : ChartRow} (hr : r ∈ importRows ns name rows charts) {ch : Chart} (hch : ch ∈ charts)
    (hk : chartKey r = (ns, name, ch.ID)) (repoName : String) :
    staleRow (charts.map (fun c => c.ID)) repoName r = false := by
  obtain ⟨c, hc, hinfo⟩ := imported_info hr hk ⟨ch, hch, rfl⟩
  obtain ⟨hmem, hid⟩ := lastWithID_mem hc
  rw [Bool.eq_false_iff]
  intro hst
  rw [staleRow_iff] at hst
  apply hst.1
  rw [hinfo]
  exact List.mem_map.mpr ⟨c, hmem, rfl⟩

theorem importRows_twice (ns name : String) (charts : List Chart) (rows : List ChartRow) :
    importRows ns name (importRows ns name rows charts) charts
      = importRows ns name rows charts := by
  apply importRows_stable
  · intro ch hch
    obtain ⟨r, hr, hk⟩ := importRows_has_key ns name charts rows ch hch
    exact List.any_eq_true.mpr ⟨r, hr, (hasChartKey_iff ..).mpr hk⟩
  · exact relabel_fixed ns name charts rows

theorem importRows_pruned (ns name repoName : String) (charts : List Chart)
    (rows : List ChartRow) :
    importRows ns name
        ((importRows ns name rows charts).filter
          (fun r => !staleRow (charts.map (fun c => c.ID)) repoName r)) charts
      = (importRows ns name rows charts).filter
          (fun r => !staleRow (charts.map (fun c => c.ID)) repoName r) := by
  apply importRows_stable
  · intro ch hch
    obtain ⟨r, hr, hk⟩ := importRows_has_key ns name charts rows ch hch
    refine List.any_eq_true.mpr ⟨r, List.mem_filter.mpr ⟨hr, ?_⟩, (hasChartKey_iff ..).mpr hk⟩
    simp [imported_not_stale hr hch hk repoName]
  · intro r hr
    exact relabel_fixed ns name charts rows r (List.mem_filter.mp hr).1

theorem removeMissingCharts_ideal_done (pg : Server) (db db' : DB) (first : Chart)
    (rest : List Chart) (r : Repo) (hr : first.Repo = some r)
    (h : removeMissingStmt pg ((first :: rest).map (fun c => c.ID)) r.Name db = .done db') :
    removeMissingCharts pg ⟨db, []⟩ (first :: rest) = (.ok, ⟨db', []⟩) := by
  unfold removeMissingCharts
  simp only [hr]
  rw [exec_ideal_done db db' _ h]

theorem removeMissingCharts_ideal_plain (pg : Server) (db : DB) (first : Chart)
    (rest : List Chart) (r : Repo) (hr : first.Repo = some r)
    (hp : ((first :: rest).map (fun c => c.ID)).all plainID = true) :
    removeMissingCharts pg ⟨db, []⟩ (first :: rest)
      = (.ok, ⟨{ db with charts := (db.charts.filter
          (fun row => !staleRow ((first :: rest).map (fun c => c.ID)) r.Name row)) }, []⟩) :=
  removeMissingCharts_ideal_done pg db _ first rest r hr
    (by simp only [removeMissingStmt, hp, if_true])

theorem removeMissingCharts_nil_repo (pg : Server) (c : Conn) (first : Chart)
    (rest : List Chart) (hr : first.Repo = none) :
    removeMissingCharts pg c (first :: rest)
      = (.crashed "runtime error: invalid memory address or nil pointer dereference", c) := by
  unfold removeMissingCharts
  simp only [hr]

/-- Running `Sync` a second time with the same repository and the same chart list,
whose IDs have no single quote, on the store the first run left: it returns what
the first run returned and leaves that store as it is, every repository row, chart
row and file row. -/
theorem Sync_idempotent_plain (pg : Server) (db : DB) (repo : RepoInternal)
    (charts : List Chart) (hplain : ∀ c ∈ charts, plainID c.ID = true) :
    Sync pg (Sync pg ⟨db, []⟩ repo charts).2 repo charts = Sync pg ⟨db, []⟩ repo charts := by
  have hE : ensureRepoRows (ensureRepoRows db.repos repo.Namespace repo.Name)
      repo.Namespace repo.Name = ensureRepoRows db.repos repo.Namespace repo.Name :=
    ensureRepoRows_of_any (ensureRepoRows_any ..)
  rw [Sync_ideal pg db]
  cases charts with
  | nil =>
    have h0 : ∀ c : Conn, removeMissingCharts pg c []
        = (.crashed "runtime error: index out of range [0] with length 0", c) := fun _ => rfl
    rw [h0]
    simp only
    rw [Sync_ideal, h0]
    simp only [hE]
    rfl
  | cons first rest =>
    cases hr : first.Repo with
    | none =>
      rw [removeMissingCharts_nil_repo _ _ _ _ hr]
      simp only
      rw [Sync_ideal, removeMissingCharts_nil_repo _ _ _ _ hr]
      simp only [hE, importRows_twice]
    | some r =>
      have hp : ((first :: rest).map (fun c => c.ID)).all plainID = true := by
        rw [List.all_eq_true]
        intro id hid
        obtain ⟨c, hc, rfl⟩ := List.mem_map.mp hid
        exact hplain c hc
      rw [removeMissingCharts_ideal_plain _ _ _ _ r hr hp]
      simp only
      rw [Sync_ideal, removeMissingCharts_ideal_plain _ _ _ _ r hr hp]
      simp only [hE, importRows_pruned, List.filter_filter, Bool.and_self]

/-! ## Keys stay unique, other rows stay put -/

theorem upsertChartRows_nodup (rows : List ChartRow) (ns name : String) (ch : Chart)
    (h : (rows.map chartKey).Nodup) :
    ((upsertChartRows rows ns name ch).map chartKey).Nodup := by
  unfold upsertChartRows
  split
  · have : (rows.map (setInfo ns name ch)).map chartKey = rows.map chartKey := by
      rw [List.map_map]
      exact List.map_congr_left (fun r _ => setInfo_key ns name ch r)
    rw [this]; exact h
  · rename_i hn
    rw [List.map_append, List.map_singleton]
    refine List.Nodup.append h (List.nodup_singleton _) ?_
    rw [List.disjoint_singleton]
    intro hmem
    obtain ⟨r, hr, hk⟩ := List.mem_map.mp hmem
    apply hn
    exact List.any_eq_true.mpr ⟨r, hr, (hasChartKey_iff ..).mpr hk⟩

theorem importRows_nodup (ns name : String) (charts : List Chart) :
    ∀ rows : List ChartRow, (rows.map chartKey).Nodup →
      ((importRows ns name rows charts).map chartKey).Nodup := by
  induction charts with
  | nil => intro rows h; exact h
  | cons ch rest ih =>
    intro rows h
    rw [importRows_cons]
    exact ih _ (upsertChartRows_nodup rows ns name ch h)

theorem mem_upsertChartRows_other (rows : List ChartRow) (ns name : String) (ch : Chart)
    (r : ChartRow) (hk : chartKey r ≠ (ns, name, ch.ID)) :
    r ∈ upsertChartRows rows ns name ch ↔ r ∈ rows := by
  have hf : ∀ x : ChartRow, chartKey x ≠ (ns, name, ch.ID) → setInfo ns name ch x = x := by
    intro x hx
    have : hasChartKey ns name ch.ID x = false := by
      rw [Bool.eq_false_iff]; intro h; exact hx ((hasChartKey_iff ..).mp h)
    simp [setInfo, this]
  constructor
  · intro h
    rcases mem_upsertChartRows h with ⟨r0, hr0, rfl⟩ | rfl
    · rw [setInfo_key] at hk
      rw [hf r0 hk]; exact hr0
    · exact absurd rfl hk
  · intro h
    unfold upsertChartRows
    split
    · exact List.mem_map.mpr ⟨r, h, hf r hk⟩
    · exact List.mem_append_left _ h

theorem mem_importRows_other (ns name : String) (charts : List Chart) :
    ∀ (rows : List ChartRow) (r : ChartRow),
      (¬ ∃ ch ∈ charts, chartKey r = (ns, name, ch.ID)) →
      (r ∈ importRows ns name rows charts ↔ r ∈ rows) := by
  induction charts with
  | nil => intro rows r _; rfl
  | cons ch rest ih =>
    intro rows r h
    rw [importRows_cons, ih]
    · apply mem_upsertChartRows_other
      intro hk
      exact h ⟨ch, List.mem_cons_self _ _, hk⟩
    · rintro ⟨c, hc, hk⟩
      exact h ⟨c, List.mem_cons_of_mem _ hc, hk⟩

theorem filter_key_eq_singleton (rows : List ChartRow) (h : (rows.map chartKey).Nodup)
    (r : ChartRow) (hr : r ∈ rows) :
    rows.filter (fun x => decide (chartKey x = chartKey r)) = [r] := by
  induction rows with
  | nil => cases hr
  | cons x xs ih =>
    rw [List.map_cons, List.nodup_cons] at h
    rcases List.mem_cons.mp hr with rfl | hmem
    · have hnone : xs.filter (fun x => decide (chartKey x = chartKey r)) = [] := by
        rw [List.filter_eq_nil_iff]
        intro y hy hk
        simp only [decide_eq_true_eq] at hk
        exact h.1 (hk ▸ List.mem_map_of_mem chartKey hy)
      simp [List.filter_cons, hnone]
    · have hx : chartKey x ≠ chartKey r := by
        intro hk
        exact h.1 (hk ▸ List.mem_map_of_mem chartKey hmem)
      simp [List.filter_cons, hx, ih h.2 hmem]

/-- C8. After `importCharts` returned without error on a store whose chart keys are
unique, the store holds exactly one chart row for each key `(repo.Namespace,
repo.Name, chart.ID)` of a chart of the list, its document is the last chart of
the list with that ID, whatever document the row held before, the rows with any
other key are the rows that were there, and the other tables are untouched. -/
theorem importCharts_upserts (c c' : Conn) (repo : Repo) (charts : List Chart)
    (huniq : (c.db.charts.map chartKey).Nodup)
    (h : importCharts c charts repo = (none, c')) :
    (∀ ch ∈ charts, ∃ r,
        c'.db.charts.filter
            (fun x => decide (chartKey x = (repo.Namespace, repo.Name, ch.ID))) = [r] ∧
        lastWithID charts ch.ID = some r.info) ∧
    (∀ r, (¬ ∃ ch ∈ charts, chartKey r = (repo.Namespace, repo.Name, ch.ID)) →
        (r ∈ c'.db.charts ↔ r ∈ c.db.charts)) ∧
    (c'.db.charts.map chartKey).Nodup ∧
    c'.db.repos = c.db.repos ∧ c'.db.files = c.db.files := by
  obtain ⟨hdb, _⟩ := importCharts_ok repo charts c c' h
  have hch : c'.db.charts = importRows repo.Namespace repo.Name c.db.charts charts := by
    rw [hdb]
  have hnd : (c'.db.charts.map chartKey).Nodup := by
    rw [hch]; exact importRows_nodup _ _ _ _ huniq
  refine ⟨?_, ?_, hnd, by rw [hdb], by rw [hdb]⟩
  · intro ch hmem
    obtain ⟨r, hr, hk⟩ := importRows_has_key repo.Namespace repo.Name charts c.db.charts ch hmem
    obtain ⟨x, hx, hinfo⟩ := imported_info hr hk ⟨ch, hmem, rfl⟩
    refine ⟨r, ?_, by rw [hinfo]; exact hx⟩
    rw [← hk]
    apply filter_key_eq_singleton _ hnd
    rw [hch]; exact hr
  · intro r hr
    rw [hch]
    exact mem_importRows_other _ _ _ _ _ hr

/-! ## Pruning after the upserts -/

theorem upsertChartRows_consistent (rows : List ChartRow) (ns name : String) (ch : Chart)
    (hch : ch.Repo.map (fun x => x.Name) = some name)
    (h : ∀ r ∈ rows, consistentRow ns name r) :
    ∀ r ∈ upsertChartRows rows ns name ch, consistentRow ns name r := by
  intro r hr
  rcases mem_upsertChartRows hr with ⟨r0, hr0, rfl⟩ | rfl
  · by_cases hk : hasChartKey ns name ch.ID r0 = true
    · intro _ _
      have hid : r0.chart_id = ch.ID := by
        have := (hasChartKey_iff ..).mp hk
        simp only [chartKey, Prod.mk.injEq] at this
        exact this.2.2
      simp [setInfo, hk, hid, hch]
    · have hs : setInfo ns name ch r0 = r0 := by simp [setInfo, hk]
      rw [hs]; exact h r0 hr0
  · intro _ _; exact ⟨rfl, hch⟩

theorem importRows_consistent (ns name : String) (charts : List Chart)
    (hch : ∀ c ∈ charts, c.Repo.map (fun x => x.Name) = some name) :
    ∀ rows : List ChartRow, (∀ r ∈ rows, consistentRow ns name r) →
      ∀ r ∈ importRows ns name rows charts, consistentRow ns name r := by
  induction charts with
  | nil => intro rows h; exact h
  | cons ch rest ih =>
    intro rows h
    rw [importRows_cons]
    exact ih (fun c hc => hch c (List.mem_cons_of_mem _ hc)) _
      (upsertChartRows_consistent rows ns name ch (hch ch (List.mem_cons_self _ _)) h)

/-- What `Sync` returns and leaves on a connection without injected failures, for
a non-empty list of charts with plain IDs whose first chart names the repository
`r`: the rows are pruned by the name of `r`. -/
theorem Sync_ideal_plain (pg : Server) (db : DB) (repo : RepoInternal) (first : Chart)
    (rest : List Chart) (r : Repo) (hr : first.Repo = some r)
    (hp : ∀ c ∈ first :: rest, plainID c.ID = true) :
    Sync pg ⟨db, []⟩ repo (first :: rest)
      = (.ok, ⟨{ repos := ensureRepoRows db.repos repo.Namespace repo.Name,
                 charts := ((importRows repo.Namespace repo.Name db.charts (first :: rest)).filter
                   (fun row => !staleRow ((first :: rest).map (fun c => c.ID)) r.Name row)),
                 files := db.files }, []⟩) := by
  have hall : ((first :: rest).map (fun c => c.ID)).all plainID = true := by
    rw [List.all_eq_true]
    intro id hid
    obtain ⟨c, hc, rfl⟩ := List.mem_map.mp hid
    exact hp c hc
  rw [Sync_ideal, removeMissingCharts_ideal_plain _ _ _ _ r hr hall]

/-- The same when the first chart names the synced repository. -/
theorem Sync_ideal_ok (pg : Server) (db : DB) (repo : RepoInternal) (first : Chart)
    (rest : List Chart) (hr : first.Repo.map (fun x => x.Name) = some repo.Name)
    (hp : ∀ c ∈ first :: rest, plainID c.ID = true) :
    Sync pg ⟨db, []⟩ repo (first :: rest)
      = (.ok, ⟨{ repos := ensureRepoRows db.repos repo.Namespace repo.Name,
                 charts := ((importRows repo.Namespace repo.Name db.charts (first :: rest)).filter
                   (fun row => !staleRow ((first :: rest).map (fun c => c.ID)) repo.Name row)),
                 files := db.files }, []⟩) := by
  cases hfr : first.Repo with
  | none => rw [hfr] at hr; simp at hr
  | some r =>
    rw [hfr] at hr
    simp only [Option.map_some', Option.some.injEq] at hr
    rw [Sync_ideal_plain pg db repo first rest r hfr hp, hr]

/-- The chart rows of the synced repository after a `Sync` that ran to the end on
consistent rows: one row per chart ID of the list, holding the last chart with
that ID. -/
theorem pruned_rows_exact (ns name : String) (charts : List Chart) (rows : List ChartRow)
    (hch : ∀ c ∈ charts, c.Repo.map (fun x => x.Name) = some name)
    (hrows : ∀ r ∈ rows, consistentRow ns name r) (r : ChartRow) :
    (r ∈ (importRows ns name rows charts).filter
          (fun row => !staleRow (charts.map (fun c => c.ID)) name row) ∧
        r.repo_namespace = ns ∧ r.repo_name = name) ↔
      ∃ c, lastWithID charts c.ID = some c ∧
        r = { repo_namespace := ns, repo_name := name, chart_id := c.ID, info := c } := by
  constructor
  · rintro ⟨hmem, hns, hname⟩
    obtain ⟨hin, hst⟩ := List.mem_filter.mp hmem
    obtain ⟨hid, hrn⟩ := importRows_consistent ns name charts hch rows hrows r hin hns hname
    have hnot : ¬ staleRow (charts.map (fun c => c.ID)) name r = true := by simpa using hst
    rw [staleRow_iff] at hnot
    have hidmem : r.info.ID ∈ charts.map (fun c => c.ID) := by
      by_contra hcon; exact hnot ⟨hcon, hrn⟩
    obtain ⟨ch, hchm, hchid⟩ := List.mem_map.mp hidmem
    have hk : chartKey r = (ns, name, r.chart_id) := by simp [chartKey, hns, hname]
    obtain ⟨c, hc, hinfo⟩ := imported_info hin hk ⟨ch, hchm, by rw [← hid]; exact hchid⟩
    have hcid : c.ID = r.chart_id := (lastWithID_mem hc).2
    refine ⟨c, by rw [hcid]; exact hc, ?_⟩
    cases r
    simp_all
  · rintro ⟨c, hc, rfl⟩
    obtain ⟨hcm, _⟩ := lastWithID_mem hc
    obtain ⟨r, hr, hk⟩ := importRows_has_key ns name charts rows c hcm
    obtain ⟨c', hc', hinfo⟩ := imported_info hr hk ⟨c, hcm, rfl⟩
    have hcc : c' = c := by rw [hc] at hc'; exact (Option.some.inj hc').symm
    have hreq : r = { repo_namespace := ns, repo_name := name, chart_id := c.ID, info := c } := by
      simp only [chartKey, Prod.mk.injEq] at hk
      cases r
      simp_all
    refine ⟨?_, rfl, rfl⟩
    rw [← hreq]
    refine List.mem_filter.mpr ⟨hr, ?_⟩
    simp [imported_not_stale hr hcm hk name]

theorem chartsOf_ids_nodup (db : DB) (ns name : String) (h : (db.charts.map chartKey).Nodup) :
    ((chartsOf db ns name).map (fun r => r.chart_id)).Nodup := by
  have hsub : ((chartsOf db ns name).map chartKey).Nodup :=
    h.sublist ((List.filter_sublist _).map chartKey)
  have hnd : (chartsOf db ns name).Nodup := List.Nodup.of_map chartKey hsub
  refine List.Nodup.map_on ?_ hnd
  intro x hx y hy hxy
  have hx' := (List.mem_filter.mp hx).2
  have hy' := (List.mem_filter.mp hy).2
  simp only [decide_eq_true_eq] at hx' hy'
  have hkey : chartKey x = chartKey y := by
    simp [chartKey, hx'.1, hx'.2, hy'.1, hy'.2, hxy]
  exact List.inj_on_of_nodup_map hsub hx hy hkey

theorem filter_keys_nodup (rows : List ChartRow) (p : ChartRow → Bool)
    (h : (rows.map chartKey).Nodup) : ((rows.filter p).map chartKey).Nodup :=
  h.sublist ((List.filter_sublist _).map chartKey)

/-- Pruning where it works. On a store with unique chart keys whose rows of the
synced repository are consistent, for chart lists with plain IDs whose charts all
name the synced repository, `charts2` not empty and every ID of `charts2` among
those of `charts1`: `Sync` with `charts1` and then `Sync` with `charts2` both
return without error, and the chart rows of the repository are then exactly one
row per chart ID of `charts2`, holding the last chart of `charts2` with that ID. -/
theorem Sync_then_Sync_prunes (pg : Server) (db : DB) (repo : RepoInternal)
    (charts1 charts2 : List Chart)
    (hne : charts2 ≠ [])
    (hsub : ∀ c ∈ charts2, ∃ c' ∈ charts1, c'.ID = c.ID)
    (hrepo : ∀ c ∈ charts1 ++ charts2, c.Repo.map (fun r => r.Name) = some repo.Name)
    (hplain : ∀ c ∈ charts1 ++ charts2, plainID c.ID = true)
    (hdb : ∀ r ∈ db.charts, consistentRow repo.Namespace repo.Name r)
    (huniq : (db.charts.map chartKey).Nodup) :
    ∃ db1 db2,
      Sync pg ⟨db, []⟩ repo charts1 = (.ok, ⟨db1, []⟩) ∧
      Sync pg ⟨db1, []⟩ repo charts2 = (.ok, ⟨db2, []⟩) ∧
      (∀ r, r ∈ chartsOf db2 repo.Namespace repo.Name ↔
        ∃ c, lastWithID charts2 c.ID = some c ∧
          r = { repo_namespace := repo.Namespace, repo_name := repo.Name,
                chart_id := c.ID, info := c }) ∧
      ((chartsOf db2 repo.Namespace repo.Name).map (fun r => r.chart_id)).Nodup := by
  cases charts2 with
  | nil => exact absurd rfl hne
  | cons f2 rest2 =>
    cases charts1 with
    | nil =>
      obtain ⟨c', hc', _⟩ := hsub f2 (List.mem_cons_self _ _)
      cases hc'
    | cons f1 rest1 =>
      have hrepo1 : ∀ c ∈ f1 :: rest1, c.Repo.map (fun r => r.Name) = some repo.Name :=
        fun c hc => hrepo c (List.mem_append_left _ hc)
      have hrepo2 : ∀ c ∈ f2 :: rest2, c.Repo.map (fun r => r.Name) = some repo.Name :=
        fun c hc => hrepo c (List.mem_append_right _ hc)
      have hs1 := Sync_ideal_ok pg db repo f1 rest1 (hrepo1 f1 (List.mem_cons_self _ _))
        (fun c hc => hplain c (List.mem_append_left _ hc))
      refine ⟨_, _, hs1, Sync_ideal_ok pg _ repo f2 rest2 (hrepo2 f2 (List.mem_cons_self _ _))
        (fun c hc => hplain c (List.mem_append_right _ hc)), ?_, ?_⟩
      · intro r
        have hrows1 : ∀ x ∈ (importRows repo.Namespace repo.Name db.charts (f1 :: rest1)).filter
            (fun row => !staleRow ((f1 :: rest1).map (fun c => c.ID)) repo.Name row),
            consistentRow repo.Namespace repo.Name x := fun x hx =>
          importRows_consistent _ _ _ hrepo1 _ hdb x (List.mem_filter.mp hx).1
        rw [← pruned_rows_exact repo.Namespace repo.Name (f2 :: rest2) _ hrepo2 hrows1 r]
        simp only [chartsOf, List.mem_filter, decide_eq_true_eq]
      · apply chartsOf_ids_nodup
        apply filter_keys_nodup
        apply importRows_nodup
        apply filter_keys_nodup
        exact importRows_nodup _ _ _ _ huniq

/-! ## Error policy of Sync -/

theorem EnsureRepoExists_ok {c c1 : Conn} {ns name : String}
    (h : EnsureRepoExists c ns name = (none, c1)) :
    c1.db = { c.db with repos := ensureRepoRows c.db.repos ns name } ∧
      c1.faults = c.faults.tail := by
  obtain ⟨hdb, hf⟩ := exec_ok h
  simp only [ensureRepoStmt, StmtResult.done.injEq] at hdb
  exact ⟨hdb.symm, hf⟩

/-- C9. The error policy of `Sync`, whatever the connection does. (1) When ensuring
the repository fails, `Sync` returns that error, the store is as it was and only
that one statement was sent. (2) When an upsert fails, `Sync` returns that error;
the charts before the failing one are written, the failing one and the later ones
are not, no statement is sent after the failing one, and every chart row that was
in the store still has a row with its key. (3) When both steps went through,
`Sync` ends as `removeMissingCharts` ends, so a pruning error is what `Sync`
returns. (4) `Sync` returns without error only when all three steps
did. -/
theorem Sync_error_policy (pg : Server) (c : Conn) (repo : RepoInternal)
    (charts : List Chart) :
    (∀ e c1, EnsureRepoExists c repo.Namespace repo.Name = (some e, c1) →
      Sync pg c repo charts = (.err e, c1) ∧ c1.db = c.db ∧ c1.faults = c.faults.tail) ∧
    (∀ c1 e c2, EnsureRepoExists c repo.Namespace repo.Name = (none, c1) →
      importCharts c1 charts { Namespace := repo.Namespace, Name := repo.Name, URL := "" }
        = (some e, c2) →
      Sync pg c repo charts = (.err e, c2) ∧
      (∃ written failing later, charts = written ++ failing :: later ∧
        c2.db = { c1.db with
          charts := importRows repo.Namespace repo.Name c1.db.charts written } ∧
        c2.faults = c1.faults.drop (written.length + 1)) ∧
      (∀ r ∈ c.db.charts, ∃ r' ∈ c2.db.charts, chartKey r' = chartKey r)) ∧
    (∀ c1 c2, EnsureRepoExists c repo.Namespace repo.Name = (none, c1) →
      importCharts c1 charts { Namespace := repo.Namespace, Name := repo.Name, URL := "" }
        = (none, c2) →
      Sync pg c repo charts = removeMissingCharts pg c2 charts ∧
      ∀ e c3, removeMissingCharts pg c2 charts = (.err e, c3) →
        Sync pg c repo charts = (.err e, c3)) ∧
    (∀ c', Sync pg c repo charts = (.ok, c') →
      ∃ c1 c2, EnsureRepoExists c repo.Namespace repo.Name = (none, c1) ∧
        importCharts c1 charts { Namespace := repo.Namespace, Name := repo.Name, URL := "" }
          = (none, c2) ∧
        removeMissingCharts pg c2 charts = (.ok, c')) := by
  refine ⟨?_, ?_, ?_, ?_⟩
  · intro e c1 h
    obtain ⟨hdb, hf⟩ := exec_err h
    refine ⟨?_, hdb, hf⟩
    simp only [Sync, InitTables, h]
  · intro c1 e c2 h1 h2
    obtain ⟨w, f, l, hc, hdb, hf⟩ := importCharts_err _ charts c1 c2 e h2
    refine ⟨?_, ⟨w, f, l, hc, hdb, hf⟩, ?_⟩
    · simp only [Sync, InitTables, h1, h2]
    · intro r hr
      have h1db := (EnsureRepoExists_ok h1).1
      have hr1 : r ∈ c1.db.charts := by rw [h1db]; exact hr
      obtain ⟨r', hr', hk⟩ := importRows_keys repo.Namespace repo.Name w c1.db.charts r hr1
      exact ⟨r', by rw [hdb]; exact hr', hk⟩
  · intro c1 c2 h1 h2
    have hs : Sync pg c repo charts = removeMissingCharts pg c2 charts := by
      simp only [Sync, InitTables, h1, h2]
    exact ⟨hs, fun e c3 h3 => hs.trans h3⟩
  · intro c' h
    unfold Sync InitTables at h
    split at h
    · simp at h
    · next c1 h1 =>
      split at h
      · simp at h
      · next c2 h2 => exact ⟨c1, c2, h1, h2, h⟩

/-! ## The checksum commit -/

theorem upsertRepoRows_all (rows : List RepoRow) (ns name checksum now : String) :
    ∀ r ∈ upsertRepoRows rows ns name checksum now,
      r.nspace = ns → r.name = name → r.checksum = some checksum := by
  intro r hr hns hname
  unfold upsertRepoRows at hr
  split at hr
  · obtain ⟨r0, _, rfl⟩ := List.mem_map.mp hr
    by_cases hk : r0.nspace = ns ∧ r0.name = name
    · simp [hk]
    · simp only [hk, if_false] at hns hname
      exact absurd ⟨hns, hname⟩ hk
  · rename_i hn
    rcases List.mem_append.mp hr with h | h
    · exfalso; apply hn
      exact List.any_eq_true.mpr ⟨r, h, by simp [hns, hname]⟩
    · simp only [List.mem_singleton] at h
      rw [h]

theorem upsertRepoRows_exists (rows : List RepoRow) (ns name checksum now : String) :
    ∃ r ∈ upsertRepoRows rows ns name checksum now,
      r.nspace = ns ∧ r.name = name ∧ r.checksum = some checksum := by
  unfold upsertRepoRows
  split
  · rename_i h
    obtain ⟨r0, hr0, hk⟩ := List.any_eq_true.mp h
    simp only [decide_eq_true_eq] at hk
    refine ⟨_, List.mem_map.mpr ⟨r0, hr0, rfl⟩, ?_⟩
    simp [hk]
  · exact ⟨_, List.mem_append_right _ (List.mem_singleton_self _), rfl, rfl, rfl⟩

/-- C4. When the run of a repository with index checksum `checksum` returns without
error, whatever the asset phase did: the store holds a repository row for
`(repo.Namespace, repo.Name)`, every such row holds `checksum`, and the store is
the one the commit statement of `UpdateLastCheck` made of the store that `Sync`
and the asset phase left, so the commit is the last write of the run. -/
theorem syncRun_commits_checksum (pg : Server) (assetPhase : Conn → Conn) (c c' : Conn)
    (repo : RepoInternal) (charts : List Chart) (checksum now : String)
    (h : syncRun pg assetPhase c repo charts checksum now = (.ok, c')) :
    (∃ r ∈ c'.db.repos,
      r.nspace = repo.Namespace ∧ r.name = repo.Name ∧ r.checksum = some checksum) ∧
    (∀ r ∈ c'.db.repos,
      r.nspace = repo.Namespace → r.name = repo.Name → r.checksum = some checksum) ∧
    ∃ c1, Sync pg c repo charts = (.ok, c1) ∧
      c'.db = { (assetPhase c1).db with
        repos := upsertRepoRows (assetPhase c1).db.repos repo.Namespace repo.Name
          checksum now } := by
  unfold syncRun at h
  split at h
  · next c1 hs =>
    split at h
    · next c2 hu =>
      simp only [Prod.mk.injEq, true_and] at h
      subst h
      obtain ⟨hdb, _⟩ := exec_ok hu
      simp only [updateLastCheckStmt, StmtResult.done.injEq] at hdb
      refine ⟨?_, ?_, c1, hs, hdb.symm⟩
      · rw [← hdb]; exact upsertRepoRows_exists ..
      · rw [← hdb]; exact upsertRepoRows_all _ _ _ _ _
    · simp at h
  · next r c1 hnot hs =>
    simp only [Prod.mk.injEq] at h
    exact absurd h.1 hnot

/-! ## The gate and the file bundles -/

theorem query_db {α : Type} (c : Conn) (q : DB → List α) : (c.query q).2.db = c.db := by
  unfold Conn.query
  split <;> rfl

theorem RepoAlreadyProcessed_db (c : Conn) (repoName repoChecksum : String) :
    (RepoAlreadyProcessed c repoName repoChecksum).2.db = c.db := by
  have h := query_db c
    (fun db => (db.repos.filter (fun r => r.name = repoName)).map (fun r => r.checksum))
  unfold RepoAlreadyProcessed
  split <;> simp_all

theorem RepoAlreadyProcessed_of_fault (db : DB) (e : String) (rest : List (Option String))
    (repoName repoChecksum : String) :
    RepoAlreadyProcessed ⟨db, some e :: rest⟩ repoName repoChecksum = (false, ⟨db, rest⟩) := rfl

theorem RepoAlreadyProcessed_of_no_fault (c : Conn) (repoName repoChecksum : String)
    (hf : c.nextFault = none) :
    (RepoAlreadyProcessed c repoName repoChecksum).1
      = (RepoAlreadyProcessed ⟨c.db, []⟩ repoName repoChecksum).1 := by
  obtain ⟨db, faults⟩ := c
  cases faults with
  | nil => rfl
  | cons x rest =>
    cases x with
    | none =>
      simp only [RepoAlreadyProcessed, Conn.query]
      cases List.map (fun r => r.checksum)
          (List.filter (fun r => decide (r.name = repoName)) db.repos) with
      | nil => rfl
      | cons y ys => cases y <;> rfl
    | some e => simp [Conn.nextFault] at hf

theorem RepoAlreadyProcessed_single_name (db : DB) (repoName repoChecksum : String)
    (h1 : (db.repos.filter (fun r => decide (r.name = repoName))).length ≤ 1) :
    (RepoAlreadyProcessed ⟨db, []⟩ repoName repoChecksum).1 = true ↔
      ∃ r ∈ db.repos, r.name = repoName ∧ r.checksum = some repoChecksum := by
  unfold RepoAlreadyProcessed Conn.query
  simp only
  cases hf : db.repos.filter (fun r => decide (r.name = repoName)) with
  | nil =>
    simp only [List.map_nil, Bool.false_eq_true, false_iff, not_exists, not_and]
    intro r hr hn
    have : r ∈ db.repos.filter (fun r => decide (r.name = repoName)) :=
      List.mem_filter.mpr ⟨hr, by simpa using hn⟩
    rw [hf] at this; cases this
  | cons x xs =>
    rw [hf] at h1
    have hxs : xs = [] := by
      cases xs with
      | nil => rfl
      | cons y ys => simp at h1
    subst hxs
    have hx : x ∈ db.repos ∧ x.name = repoName := by
      have : x ∈ db.repos.filter (fun r => decide (r.name = repoName)) := by rw [hf]; simp
      simpa using List.mem_filter.mp this
    have hall : ∀ r ∈ db.repos, r.name = repoName → r = x := by
      intro r hr hn
      have : r ∈ db.repos.filter (fun r => decide (r.name = repoName)) :=
        List.mem_filter.mpr ⟨hr, by simpa using hn⟩
      rw [hf] at this
      simpa using this
    cases hc : x.checksum with
    | none =>
      simp only [List.map_cons, hc, List.map_nil, Bool.false_eq_true, false_iff, not_exists,
        not_and]
      intro r hr hn hrc
      rw [hall r hr hn, hc] at hrc
      cases hrc
    | some k =>
      simp only [List.map_cons, hc, List.map_nil, decide_eq_true_eq]
      constructor
      · intro hk; exact ⟨x, hx.1, hx.2, by rw [hc, hk]⟩
      · rintro ⟨r, hr, hn, hrc⟩
        rw [hall r hr hn, hc] at hrc
        exact Option.some.inj hrc

/-- The gate where it works. On every connection `RepoAlreadyProcessed` leaves the
store as it is; when the lookup fails it answers false; and when the lookup goes through on
a store where one repository record at most carries the name, it answers true
exactly when a record with that name exists and holds the checksum, so that an
absent record, a record without checksum and another checksum all give false. -/
theorem RepoAlreadyProcessed_gate (c : Conn) (repoName repoChecksum : String)
    (h1 : (c.db.repos.filter (fun r => decide (r.name = repoName))).length ≤ 1) :
    (RepoAlreadyProcessed c repoName repoChecksum).2.db = c.db ∧
    (c.nextFault ≠ none →
      (RepoAlreadyProcessed c repoName repoChecksum).1 = false) ∧
    (c.nextFault = none →
      ((RepoAlreadyProcessed c repoName repoChecksum).1 = true ↔
        ∃ r ∈ c.db.repos, r.name = repoName ∧ r.checksum = some repoChecksum)) := by
  refine ⟨RepoAlreadyProcessed_db c repoName repoChecksum, ?_, ?_⟩
  · intro he
    obtain ⟨db, faults⟩ := c
    cases faults with
    | nil => simp [Conn.nextFault] at he
    | cons x rest =>
      cases x with
      | none => simp [Conn.nextFault] at he
      | some e => rw [RepoAlreadyProcessed_of_fault]
  · intro hf
    rw [RepoAlreadyProcessed_of_no_fault c repoName repoChecksum hf]
    exact RepoAlreadyProcessed_single_name c.db repoName repoChecksum h1

theorem insertFiles_nil_repo (c : Conn) (chartFilesID : String) (files : ChartFiles)
    (h : files.Repo = none) :
    insertFiles c chartFilesID files
      = (some ("unable to insert file without repo: " ++ goQuote files.ID), c) := by
  simp only [insertFiles, h]

theorem upsertFilesRows_has (rows : List FilesRow) (name ns id : String) (info : ChartFiles) :
    ∃ r ∈ upsertFilesRows rows name ns id info, r.chart_files_ID = id ∧ r.info = info := by
  unfold upsertFilesRows
  split
  · rename_i h
    obtain ⟨r0, hr0, hk⟩ := List.any_eq_true.mp h
    simp only [decide_eq_true_eq] at hk
    refine ⟨_, List.mem_map.mpr ⟨r0, hr0, rfl⟩, ?_⟩
    simp [hk]
  · exact ⟨_, List.mem_append_right _ (List.mem_singleton_self _), rfl, rfl⟩

/-- After `insertFiles` returned without error, `filesExist` with the bundle's digest
answers true. -/
theorem insertFiles_then_filesExist (c c' : Conn) (chartFilesID : String) (files : ChartFiles)
    (h : insertFiles c chartFilesID files = (none, c')) :
    (filesExist ⟨c'.db, []⟩ chartFilesID files.Digest).1 = true := by
  unfold insertFiles at h
  split at h
  · simp at h
  · next repo _ =>
    obtain ⟨hdb, _⟩ := exec_ok h
    simp only [insertFilesStmt, StmtResult.done.injEq] at hdb
    obtain ⟨r, hr, hid, hinfo⟩ :=
      upsertFilesRows_has c.db.files repo.Name repo.Namespace chartFilesID files
    have hmem : r ∈ c'.db.files.filter (fun r =>
        r.chart_files_ID = chartFilesID ∧ infoDigest r.info = some files.Digest) := by
      rw [← hdb]
      refine List.mem_filter.mpr ⟨hr, ?_⟩
      simp [hid, hinfo, infoDigest]
    unfold filesExist Conn.query
    simp only
    cases hl : c'.db.files.filter (fun r =>
        r.chart_files_ID = chartFilesID ∧ infoDigest r.info = some files.Digest) with
    | nil => rw [hl] at hmem; cases hmem
    | cons x xs => rfl

/-! ## The properties at concrete inputs -/

theorem Sync_ideal_nil (pg : Server) (db : DB) (repo : RepoInternal) :
    Sync pg ⟨db, []⟩ repo []
      = (.crashed "runtime error: index out of range [0] with length 0",
          ⟨{ db with repos := ensureRepoRows db.repos repo.Namespace repo.Name }, []⟩) := by
  rw [Sync_ideal]
  rfl

/-- C1 fails on the code. With `charts2` empty, the second `Sync` stops at
`charts[0]` and the rows of `ch1` and `ch2` stay, where the claim leaves none. And
with a chart `ch1` of `charts1` whose document names the repository `stable`, the
sync with `charts2 = [ch2]` prunes by the repository name of the documents, so the
row of `ch1` stays. -/
theorem Sync_then_Sync_leaves_stale_charts :
    (∀ pg : Server, Sync pg ⟨emptyDB, []⟩ demo [ch1, ch2] = (.ok, ⟨syncedDB, []⟩)) ∧
    (∀ pg : Server, Sync pg ⟨syncedDB, []⟩ demo []
      = (.crashed "runtime error: index out of range [0] with length 0",
          ⟨syncedDB, []⟩)) ∧
    chartsOf syncedDB "kubeapps" "demo"
      = [rowOf "kubeapps" "demo" ch1, rowOf "kubeapps" "demo" ch2] ∧
    (∀ c ∈ [ch2], ∃ c' ∈ [ch1Stable, ch2], c'.ID = c.ID) ∧
    (∀ pg : Server, Sync pg ⟨emptyDB, []⟩ demo [ch1Stable, ch2] = (.ok, ⟨stableDB, []⟩)) ∧
    (∀ pg : Server, Sync pg ⟨stableDB, []⟩ demo [ch2] = (.ok, ⟨stableDB, []⟩)) ∧
    chartsOf stableDB "kubeapps" "demo"
      = [rowOf "kubeapps" "demo" ch1Stable, rowOf "kubeapps" "demo" ch2] := by
  refine ⟨?_, ?_, by decide, by decide, ?_, ?_, by decide⟩
  · intro pg
    rw [Sync_ideal_ok pg emptyDB demo ch1 [ch2] (by decide) (by decide)]
    decide
  · intro pg
    rw [Sync_ideal_nil]
    decide
  · intro pg
    rw [Sync_ideal_plain pg emptyDB demo ch1Stable [ch2] _ rfl (by decide)]
    decide
  · intro pg
    rw [Sync_ideal_ok pg stableDB demo ch2 [] (by decide) (by decide)]
    decide

/-- Pruning on the synced store: `ch1`, `ch2`, `ch3` and then a newer `ch2` with
`ch3`. -/
theorem Sync_then_Sync_prunes_witness :
    [ch2b, ch3] ≠ [] ∧
    ∃ db1 db2,
      Sync chXServer ⟨syncedDB, []⟩ demo [ch1, ch2, ch3] = (.ok, ⟨db1, []⟩) ∧
      Sync chXServer ⟨db1, []⟩ demo [ch2b, ch3] = (.ok, ⟨db2, []⟩) ∧
      (∀ r, r ∈ chartsOf db2 demo.Namespace demo.Name ↔
        ∃ c, lastWithID [ch2b, ch3] c.ID = some c ∧
          r = { repo_namespace := demo.Namespace, repo_name := demo.Name,
                chart_id := c.ID, info := c }) ∧
      ((chartsOf db2 demo.Namespace demo.Name).map (fun r => r.chart_id)).Nodup :=
  ⟨by decide,
   Sync_then_Sync_prunes chXServer syncedDB demo [ch1, ch2, ch3] [ch2b, ch3] (by decide)
     (by decide) (by decide) (by decide) (by decide) (by decide)⟩

/-- C2 fails on the code: with the empty chart list `Sync` never returns without
error and deletes no chart row, on any connection; on the synced store it stops
with an index out of range and both chart rows of the repository stay. -/
theorem Sync_empty_list_crashes :
    (∀ (pg : Server) (c : Conn) (repo : RepoInternal),
      (Sync pg c repo []).1 ≠ .ok ∧ (Sync pg c repo []).2.db.charts = c.db.charts) ∧
    (∀ pg : Server, Sync pg ⟨syncedDB, []⟩ demo []
      = (.crashed "runtime error: index out of range [0] with length 0",
          ⟨syncedDB, []⟩)) ∧
    chartsOf syncedDB "kubeapps" "demo"
      = [rowOf "kubeapps" "demo" ch1, rowOf "kubeapps" "demo" ch2] := by
  refine ⟨?_, ?_, by decide⟩
  · intro pg c repo
    unfold Sync InitTables
    cases he : EnsureRepoExists c repo.Namespace repo.Name with
    | mk res c1 =>
      cases res with
      | some e =>
        refine ⟨by simp, ?_⟩
        simp only
        rw [(exec_err he).1]
      | none =>
        simp only [importCharts, removeMissingCharts]
        refine ⟨by simp, ?_⟩
        rw [(EnsureRepoExists_ok he).1]
  · intro pg
    rw [Sync_ideal_nil]
    decide

/-- C3 fails on the code: syncing `kubeapps/demo` deletes the chart row of the
repository `team-a/demo`, whose document names a repository `demo` too. -/
theorem Sync_prunes_other_namespace :
    chartsOf twoNamespacesDB "team-a" "demo" = [rowOf "team-a" "demo" wordpress] ∧
    (∀ pg : Server, Sync pg ⟨twoNamespacesDB, []⟩ demo [ch1, ch2]
      = (.ok, ⟨{ twoNamespacesDB with charts :=
          [rowOf "kubeapps" "demo" ch1, rowOf "kubeapps" "demo" ch2] }, []⟩)) ∧
    chartsOf { twoNamespacesDB with charts :=
          [rowOf "kubeapps" "demo" ch1, rowOf "kubeapps" "demo" ch2] } "team-a" "demo" = [] := by
  refine ⟨by decide, ?_, by decide⟩
  intro pg
  rw [Sync_ideal_ok pg twoNamespacesDB demo ch1 [ch2] (by decide) (by decide)]
  decide

/-- The scenario of C4: the repository `demo` with `ch1`, `ch2` and checksum `abc`
on the empty store leaves two chart rows and the checksum `abc`. -/
theorem syncRun_commits_checksum_witness :
    syncRun chXServer (fun c => c) ⟨emptyDB, []⟩ demo [ch1, ch2] "abc" "t0"
      = (.ok, ⟨committedDB, []⟩) ∧
    committedDB.charts.length = 2 ∧
    ∃ r ∈ committedDB.repos,
      r.nspace = "kubeapps" ∧ r.name = "demo" ∧ r.checksum = some "abc" :=
  ⟨by decide, by decide,
   (syncRun_commits_checksum chXServer (fun c => c) ⟨emptyDB, []⟩ ⟨committedDB, []⟩ demo
      [ch1, ch2] "abc" "t0" (by decide)).1⟩

/-- C5 fails on the code: the store holds a repository record named `demo` with
checksum `def`, and the gate answers false for `def`, because it reads the first
row named `demo`, the one of another namespace; for `abc` it answers true. With
the rows in the other order the answers are exchanged. -/
theorem RepoAlreadyProcessed_reads_first_namesake :
    (∃ r ∈ twoChecksumsDB.repos, r.name = "demo" ∧ r.checksum = some "def") ∧
    RepoAlreadyProcessed ⟨twoChecksumsDB, []⟩ "demo" "def" = (false, ⟨twoChecksumsDB, []⟩) ∧
    RepoAlreadyProcessed ⟨twoChecksumsDB, []⟩ "demo" "abc" = (true, ⟨twoChecksumsDB, []⟩) ∧
    RepoAlreadyProcessed ⟨{ twoChecksumsDB with repos := twoChecksumsDB.repos.reverse }, []⟩
      "demo" "abc"
      = (false, ⟨{ twoChecksumsDB with repos := twoChecksumsDB.repos.reverse }, []⟩) := by
  decide

/-- The gate on the store with the one repository `kubeapps/demo` and the checksum
`abc`: true for `abc` and false for `def`. -/
theorem RepoAlreadyProcessed_gate_witness :
    (committedDB.repos.filter (fun r => decide (r.name = "demo"))).length ≤ 1 ∧
    (RepoAlreadyProcessed ⟨committedDB, [none]⟩ "demo" "abc").2.db = committedDB ∧
    (RepoAlreadyProcessed ⟨committedDB, [none]⟩ "demo" "abc").1 = true ∧
    (RepoAlreadyProcessed ⟨committedDB, [none]⟩ "demo" "def").1 = false ∧
    ((RepoAlreadyProcessed ⟨committedDB, [none]⟩ "demo" "abc").1 = true ↔
      ∃ r ∈ committedDB.repos, r.name = "demo" ∧ r.checksum = some "abc") :=
  ⟨by decide,
   (RepoAlreadyProcessed_gate ⟨committedDB, [none]⟩ "demo" "abc" (by decide)).1,
   by decide, by decide,
   (RepoAlreadyProcessed_gate ⟨committedDB, [none]⟩ "demo" "abc" (by decide)).2.2
     (by decide)⟩

/-- C6 fails on the code: after `UpdateLastCheck` committed `def` for `team-a/demo`
on a store that holds `kubeapps/demo` with checksum `abc`, the gate answers false
for `def` and true for `abc`. With the rows in the other order, it is the commit
of `abc` for `kubeapps/demo` after which the gate answers false for `abc`. -/
theorem UpdateLastCheck_then_gate_other_namespace :
    UpdateLastCheck ⟨committedDB, []⟩ "team-a" "demo" "def" "t1"
      = (none, ⟨{ committedDB with repos := twoChecksumsDB.repos }, []⟩) ∧
    (RepoAlreadyProcessed ⟨{ committedDB with repos := twoChecksumsDB.repos }, []⟩
      "demo" "def").1 = false ∧
    (RepoAlreadyProcessed ⟨{ committedDB with repos := twoChecksumsDB.repos }, []⟩
      "demo" "abc").1 = true ∧
    (RepoAlreadyProcessed
      (UpdateLastCheck ⟨{ emptyDB with repos := twoChecksumsDB.repos.reverse }, []⟩
        "kubeapps" "demo" "abc" "t2").2 "demo" "abc").1 = false := by
  decide

theorem removeMissingStmt_chX (pg : Server)
    (hpg : ∀ (p : String) (db : DB), pg chXText p db = .done (chXEffect p db))
    (p : String) (db : DB) :
    removeMissingStmt pg [chX.ID] p db = .done (chXEffect p db) := by
  have hq : [chX.ID].all plainID = false := by decide
  have ht : removeMissingText [chX.ID] = chXText := by decide
  simp only [removeMissingStmt, hq, ht, hpg, Bool.false_eq_true, if_false]

theorem Sync_ideal_chX (pg : Server)
    (hpg : ∀ (p : String) (db : DB), pg chXText p db = .done (chXEffect p db)) (db : DB) :
    Sync pg ⟨db, []⟩ demo [chX]
      = (.ok, ⟨chXEffect "demo"
          { repos := ensureRepoRows db.repos "kubeapps" "demo",
            charts := importRows "kubeapps" "demo" db.charts [chX],
            files := db.files }, []⟩) := by
  rw [Sync_ideal]
  exact removeMissingCharts_ideal_done pg _ _ chX [] demoRepo rfl
    (removeMissingStmt_chX pg hpg _ _)

/-- C7 fails on the code. The chart ID of `chX` closes the string literal it is
spliced into, and the statement that `removeMissingCharts` sends is `chXText`. For
every server that reads that statement as SQL does, on the synced store with `ch1`
and `ch2`: the first `Sync` with `[chX]` leaves no chart row, the second `Sync`
with the same list leaves the row of `chX`, so the second run changes the store. -/
theorem Sync_twice_differs_on_spliced_ID (pg : Server)
    (hpg : ∀ (p : String) (db : DB), pg chXText p db = .done (chXEffect p db)) :
    removeMissingText [chX.ID] = chXText ∧
    Sync pg ⟨syncedDB, []⟩ demo [chX] = (.ok, ⟨{ syncedDB with charts := [] }, []⟩) ∧
    Sync pg ⟨{ syncedDB with charts := [] }, []⟩ demo [chX]
      = (.ok, ⟨{ syncedDB with charts := [rowOf "kubeapps" "demo" chX] }, []⟩) ∧
    Sync pg (Sync pg ⟨syncedDB, []⟩ demo [chX]).2 demo [chX]
      ≠ Sync pg ⟨syncedDB, []⟩ demo [chX] := by
  have h1 : Sync pg ⟨syncedDB, []⟩ demo [chX]
      = (.ok, ⟨{ syncedDB with charts := [] }, []⟩) := by
    rw [Sync_ideal_chX pg hpg]
    decide
  have h2 : Sync pg ⟨{ syncedDB with charts := [] }, []⟩ demo [chX]
      = (.ok, ⟨{ syncedDB with charts := [rowOf "kubeapps" "demo" chX] }, []⟩) := by
    rw [Sync_ideal_chX pg hpg]
    decide
  refine ⟨by decide, h1, h2, ?_⟩
  rw [h1]
  simp only
  rw [h2]
  decide

/-- C7 on a server that reads the statement `chXText` as SQL does. -/
theorem Sync_twice_differs_on_spliced_ID_witness :
    (∀ (p : String) (db : DB), chXServer chXText p db = .done (chXEffect p db)) ∧
    Sync chXServer ⟨syncedDB, []⟩ demo [chX] = (.ok, ⟨{ syncedDB with charts := [] }, []⟩) ∧
    Sync chXServer ⟨{ syncedDB with charts := [] }, []⟩ demo [chX]
      = (.ok, ⟨{ syncedDB with charts := [rowOf "kubeapps" "demo" chX] }, []⟩) :=
  ⟨fun _ _ => by simp [chXServer],
   (Sync_twice_differs_on_spliced_ID chXServer (fun _ _ => by simp [chXServer])).2.1,
   (Sync_twice_differs_on_spliced_ID chXServer (fun _ _ => by simp [chXServer])).2.2.1⟩

/-- Idempotence for plain IDs on the synced store, with a list that replaces `ch2`
and drops `ch1`. -/
theorem Sync_idempotent_plain_witness :
    (∀ c ∈ [ch2b, ch3], plainID c.ID = true) ∧
    Sync chXServer (Sync chXServer ⟨syncedDB, []⟩ demo [ch2b, ch3]).2 demo [ch2b, ch3]
      = Sync chXServer ⟨syncedDB, []⟩ demo [ch2b, ch3] :=
  ⟨by decide, Sync_idempotent_plain chXServer syncedDB demo [ch2b, ch3] (by decide)⟩

/-- C8 on the synced store: `ch2` is replaced twice, `ch3` is new, `ch1` stays. -/
theorem importCharts_upserts_witness :
    (syncedDB.charts.map chartKey).Nodup ∧
    importCharts ⟨syncedDB, []⟩ [ch2b, ch3, ch2] demoRepo
      = (none, ⟨{ syncedDB with charts :=
          [rowOf "kubeapps" "demo" ch1, rowOf "kubeapps" "demo" ch2,
           rowOf "kubeapps" "demo" ch3] }, []⟩) ∧
    ∀ ch ∈ [ch2b, ch3, ch2], ∃ r,
      [rowOf "kubeapps" "demo" ch1, rowOf "kubeapps" "demo" ch2,
        rowOf "kubeapps" "demo" ch3].filter
          (fun x => decide (chartKey x = (demoRepo.Namespace, demoRepo.Name, ch.ID))) = [r] ∧
      lastWithID [ch2b, ch3, ch2] ch.ID = some r.info :=
  ⟨by decide, by decide,
   (importCharts_upserts ⟨syncedDB, []⟩
      ⟨{ syncedDB with charts :=
          [rowOf "kubeapps" "demo" ch1, rowOf "kubeapps" "demo" ch2,
           rowOf "kubeapps" "demo" ch3] }, []⟩ demoRepo [ch2b, ch3, ch2]
      (by decide) (by decide)).1⟩

/-- C9 with a failure injected at the second upsert: the first chart is written,
the failing one and the one after it are not, and the last entry of the script is
not consumed. -/
theorem Sync_error_policy_witness :
    Sync chXServer ⟨syncedDB, [none, none, some "connection reset", none]⟩ demo
        [ch2b, ch3, ch1]
      = (.err "connection reset",
          ⟨{ syncedDB with charts :=
              [rowOf "kubeapps" "demo" ch1, rowOf "kubeapps" "demo" ch2b] }, [none]⟩) :=
  ((Sync_error_policy chXServer ⟨syncedDB, [none, none, some "connection reset", none]⟩ demo
      [ch2b, ch3, ch1]).2.1
    ⟨syncedDB, [none, some "connection reset", none]⟩ "connection reset"
    ⟨{ syncedDB with charts :=
        [rowOf "kubeapps" "demo" ch1, rowOf "kubeapps" "demo" ch2b] }, [none]⟩
    (by decide) (by decide)).1

/-- C10 fails on the code: the store holds the bundle `demo/wordpress-1.0` of the
repository `kubeapps/demo` only, and `filesExist` answers true whichever
repository asks: the repository `team-a/demo` has no file bundle. -/
theorem filesExist_ignores_repository :
    filesExist ⟨filesDB, []⟩ "demo/wordpress-1.0" "d1" = (true, ⟨filesDB, []⟩) ∧
    filesDB.files.filter
      (fun r => decide (r.repo_namespace = "team-a" ∧ r.repo_name = "demo")) = [] ∧
    insertFiles ⟨{ filesDB with files := [] }, []⟩ "demo/wordpress-1.0" bundle
      = (none, ⟨filesDB, []⟩) := by
  decide

end AssetSyncer
